import Mathlib

/-
Shallow embedding of the jobline engine (src/index.ts, easesu/jobline).

Modelling conventions:
- JavaScript values are modelled by the inductive `Val`; JS `undefined` is
  `Val.vundefined`, `null` is `Val.vnull`, plain objects are `Val.vobj` holding an
  association list of fields.  Records (objects used as string-keyed maps) are
  `Rec := List (String × Val)`; `recSet` models `obj[key] = v` (overwrite in
  place, append when new), `mapGet` models property lookup.
- An optional TS parameter or field (`x?: T`) is `Option T`; an absent value
  is `none` and JS object truthiness is modelled by `Val.truthy`.
- A job executor `(ctx, args, {done, log}) => output` is a pure function
  `Rec → Rec → ExecOutcome`: `ctx` is the context state after the call (the
  source mutates the context object in place), `result` is `.ok output` for
  normal completion and `.error e` for a throw/rejection, and `doneCalled`
  records whether the executor invoked the one-shot `done()` callback.
- `executeJobLine` returns `LineOutcome × List String`.  The second component
  is the trace of jobs whose executor was invoked, in order (the source logs a
  line per invocation); it makes "executor was not invoked" statable.
  `LineOutcome.exit` models `process.exit()` (unknown line / missing required
  args), `LineOutcome.err` models an uncaught throw escaping the call
  (the job-not-found error, and the TypeError raised by
  `options?.args![argKey]` when `options` is present but `options.args` is
  undefined while the line declares required args).
- The module-level registries (`jobs`, `jobLines` maps) are passed explicitly;
  `registerJob` / `registerJobLine` return the updated registry or the thrown
  error message in `Except`.
-/

set_option autoImplicit false

namespace Jobline

/-- Lookup in an association list with string keys, modelling `map.get(k)` /
`obj[k]` returning `undefined` (i.e. `none`) when the key is absent. -/
def mapGet {α : Type} : List (String × α) → String → Option α
  | [], _ => none
  | (k, v) :: rest, key => if k = key then some v else mapGet rest key

/-- Assignment `obj[key] = v` on an association list: overwrite in place when
the key exists, append otherwise (JS first-assignment key order). -/
def recSet {α : Type} : List (String × α) → String → α → List (String × α)
  | [], key, v => [(key, v)]
  | (k, w) :: rest, key, v =>
    if k = key then (k, v) :: rest else (k, w) :: recSet rest key v

/-- JavaScript runtime values, as far as the engine observes them. -/
inductive Val : Type where
  | vundefined : Val
  | vnull : Val
  | vbool : Bool → Val
  | vnum : Int → Val
  | vstr : String → Val
  | vobj : List (String × Val) → Val

/-- A JS object used as a string-keyed record. -/
abbrev Rec : Type := List (String × Val)

/-- JS truthiness of a value (objects are always truthy, even when empty). -/
def Val.truthy : Val → Bool
  | .vundefined => false
  | .vnull => false
  | .vbool b => b
  | .vnum n => if n = 0 then false else true
  | .vstr s => if s = "" then false else true
  | .vobj _ => true

/-- Property access `v[k]` on a truthy value: a field of an object, otherwise
`undefined` (accessing a property of a number/string/bool yields undefined). -/
def Val.getKey : Val → String → Val
  | .vobj fields, k => (mapGet fields k).getD .vundefined
  | _, _ => .vundefined

/-- Lookup `r[k]` on a record, `undefined` when absent. -/
def recGet (r : Rec) (k : String) : Val :=
  (mapGet r k).getD .vundefined

/-- Journal status literals: 'pending' | 'exception' | 'done'. -/
inductive JStatus : Type where
  | pending : JStatus
  | exception : JStatus
  | done : JStatus
deriving DecidableEq

/-- `JobJournal` from the source: the record of one job execution attempt.
The `status` field is optional in the TS interface. -/
structure JobJournal : Type where
  name : String
  input : Rec
  output : Val
  status : Option JStatus

/-- `JobLineJournal` from the source: the record of one line execution. -/
structure JobLineJournal : Type where
  name : String
  input : Rec
  status : Option JStatus
  steps : List JobJournal

/-- The observable behaviour of one executor call: the context state after the
call (the source lets the executor mutate the context object in place), the
returned output or thrown error, and whether `done()` was invoked. -/
structure ExecOutcome : Type where
  ctx : Rec
  result : Except Val Val
  doneCalled : Bool

/-- A job executor as a pure function of the context and the resolved args. -/
abbrev JobExecutor : Type := Rec → Rec → ExecOutcome

/-- `Job` from the source (the cosmetic `label`/`desc` fields, used only for
console output, are omitted). -/
structure Job : Type where
  name : String
  args : Option (List String)
  executor : JobExecutor

/-- One entry of `JobLineStep.args`: the four runtime shapes of the arg-spec
tuples, keyed by the target parameter name.
`[key, v]` is `literal`, `[key, 'external', k]` is `fromExternal`,
`[key, PREVIOUS_STEP, k]` is `fromPrevious`, `[key, i, k]` with numeric `i`
is `fromStepAt`. -/
inductive ArgSpec : Type where
  | literal : String → Val → ArgSpec
  | fromExternal : String → String → ArgSpec
  | fromPrevious : String → String → ArgSpec
  | fromStepAt : String → Int → String → ArgSpec

/-- The target parameter name of a spec (`arg[0]`). -/
def ArgSpec.key : ArgSpec → String
  | .literal k _ => k
  | .fromExternal k _ => k
  | .fromPrevious k _ => k
  | .fromStepAt k _ _ => k

/-- `JobLineStep` from the source. -/
structure JobLineStep : Type where
  name : String
  inheritable : Option Bool
  args : Option (List ArgSpec)

/-- `JobLine` from the source. -/
structure JobLine : Type where
  name : String
  args : Option (List String)
  steps : List JobLineStep

/-- The module-level `jobs` map. -/
abbrev JobRegistry : Type := List (String × Job)

/-- The module-level `jobLines` map. -/
abbrev LineRegistry : Type := List (String × JobLine)

/-- `registerJob`: a nullish job is a no-op; a duplicate name throws; otherwise
the job is inserted. -/
def registerJob (reg : JobRegistry) (job : Option Job) : Except String JobRegistry :=
  match job with
  | none => .ok reg
  | some j =>
    match mapGet reg j.name with
    | some _ => .error ("job " ++ j.name ++ " 已存在")
    | none => .ok (recSet reg j.name j)

/-- `registerJobLine`: same shape as `registerJob`. -/
def registerJobLine (reg : LineRegistry) (jobLine : Option JobLine) : Except String LineRegistry :=
  match jobLine with
  | none => .ok reg
  | some l =>
    match mapGet reg l.name with
    | some _ => .error ("jobLine " ++ l.name ++ " 已存在")
    | none => .ok (recSet reg l.name l)

/-- `ctx` defaulting in `executeOneJob`: `if (ctx) ... else {}` (the only
falsy context the engine ever passes is `null`). -/
def ctxOrEmpty : Option Rec → Rec
  | some c => c
  | none => []

/-- Result type of `executeOneJob` (`JobExecuteResult` in the source). -/
structure JobExecuteResult : Type where
  ctx : Rec
  journal : JobJournal
  output : Val
  done : Bool

/-- `executeOneJob`: start from a shallow copy of the prior journal when one
is supplied, else a fresh pending journal; run the executor; on normal
completion record the output and status 'done'; on a throw leave the output
unchanged and set status 'exception'.  The function is total: a job-level
failure never propagates as an error. -/
def executeOneJob (job : Job) (ctx : Option Rec) (args : Rec)
    (journal : Option JobJournal) : JobExecuteResult :=
  let jobJournal : JobJournal :=
    match journal with
    | some j => j
    | none => { name := job.name, input := args, output := .vnull, status := some .pending }
  let outcome := job.executor (ctxOrEmpty ctx) args
  match outcome.result with
  | .ok out =>
    { ctx := outcome.ctx
      journal := { jobJournal with output := out, status := some .done }
      output := out
      done := outcome.doneCalled }
  | .error _ =>
    { ctx := outcome.ctx
      journal := { jobJournal with status := some .exception }
      output := .vundefined
      done := outcome.doneCalled }

/-- `options` record passed to `buildJobArgs`. -/
structure BuildOptions : Type where
  external : Option Rec
  previous : Val
  steps : List JobJournal
  index : Nat

/-- List indexing `xs[i]`, `undefined` when out of range. -/
def listGet {α : Type} : List α → Nat → Option α
  | [], _ => none
  | x :: _, 0 => some x
  | _ :: xs, n + 1 => listGet xs n

/-- Array access `steps[i]` with a possibly negative computed index
(a negative JS array index reads an absent property, i.e. `undefined`). -/
def stepsAt (steps : List JobJournal) (i : Int) : Option JobJournal :=
  if i < 0 then none else listGet steps i.toNat

/-- One iteration of the `args.forEach` body in `buildJobArgs`, acting on the
accumulated `(res, assignedArgs)` state. -/
def applySpec (jobArgs : List String) (opts : BuildOptions)
    (st : Rec × List String) (spec : ArgSpec) : Rec × List String :=
  if spec.key ∈ jobArgs then
    match spec with
    | .literal k v => (recSet st.1 k v, st.2 ++ [k])
    | .fromExternal k s =>
      match opts.external with
      | some ext => (recSet st.1 k (recGet ext s), st.2 ++ [k])
      | none => st
    | .fromPrevious k s =>
      if opts.previous.truthy then (recSet st.1 k (opts.previous.getKey s), st.2 ++ [k])
      else st
    | .fromStepAt k i s =>
      let entry :=
        if i < 0 then stepsAt opts.steps ((opts.index : Int) + i)
        else stepsAt opts.steps i
      let stepOutput := match entry with | some j => j.output | none => Val.vundefined
      if stepOutput.truthy then (recSet st.1 k (stepOutput.getKey s), st.2 ++ [k])
      else st
  else st

/-- The explicit-resolution phase of `buildJobArgs`: fold the spec list,
returning the result record and the `assignedArgs` list (with multiplicity,
exactly as the source pushes). -/
def explicitPhase (specs : List ArgSpec) (jobArgs : List String)
    (opts : BuildOptions) : Rec × List String :=
  specs.foldl (applySpec jobArgs opts) ([], [])

/-- `buildJobArgs`: early-return `{}` when either the step's spec list or the
job's formal list is undefined; otherwise run explicit resolution, then the
same-name fallback from `external` — guarded by
`assignedArgs.length < jobArgs.length`. -/
def buildJobArgs (specs : Option (List ArgSpec)) (jobArgs : Option (List String))
    (opts : BuildOptions) : Rec :=
  match specs, jobArgs with
  | some specs, some jobArgs =>
    let st := explicitPhase specs jobArgs opts
    match opts.external with
    | some ext =>
      if st.2.length < jobArgs.length then
        jobArgs.foldl (fun r a => if a ∈ st.2 then r else recSet r a (recGet ext a)) st.1
      else st.1
    | none => st.1
  | _, _ => []

/-- The `options` argument of `executeJobLine`. -/
structure ExecOptions : Type where
  args : Option Rec
  previousJobLineJournal : Option JobLineJournal

/-- `LineOutcome`: how a call of `executeJobLine` ends.  `exit` is
`process.exit()`, `err` is an uncaught thrown error, `ok` is a normal return
of the line journal. -/
inductive LineOutcome : Type where
  | exit : LineOutcome
  | err : String → LineOutcome
  | ok : JobLineJournal → LineOutcome

/-- Resolution of the first argument of `executeJobLine`: a registry lookup
for a string, the line itself otherwise. -/
def resolveJobLine (lines : LineRegistry) : Sum String JobLine → Option JobLine
  | .inl name => mapGet lines name
  | .inr l => some l

/-- The value of `options?.args![argKey]`: `undefined` when `options` itself
is absent, a TypeError (modelled as `.error ()`) when `options` is present but
`options.args` is undefined, a plain lookup otherwise. -/
def lookupOptArg (options : Option ExecOptions) (k : String) : Except Unit Val :=
  match options with
  | none => .ok .vundefined
  | some o =>
    match o.args with
    | none => .error ()
    | some a => .ok (recGet a k)

/-- The `jobLine.args.forEach` validation loop: split the required names into
the lacking ones (value strictly `undefined`) and the `externalArgs` record of
the defined ones. -/
def collectArgs (options : Option ExecOptions) (reqs : List String) :
    Except Unit (List String × Rec) :=
  reqs.foldl
    (fun acc k =>
      match acc with
      | .error e => .error e
      | .ok (lacked, ext) =>
        match lookupOptArg options k with
        | .error _ => .error ()
        | .ok v =>
          match v with
          | .vundefined => .ok (lacked ++ [k], ext)
          | v => .ok (lacked, recSet ext k v))
    (.ok ([], []))

/-- The `previousJournal && previousJournal.status === 'done'` test of the
resumption short-circuit. -/
def prevJournalDone : Option JobJournal → Bool
  | some j => if j.status = some JStatus.done then true else false
  | none => false

/-- `(jobLineJournal.steps[steps.length - 1] || {}).output`. -/
def lastOutput : List JobJournal → Val
  | [] => .vundefined
  | j :: rest => match rest with | [] => j.output | _ => lastOutput rest

/-- The context argument of the step's job run:
`step.inheritable !== false ? previousContext : null`. -/
def stepCtx (prevCtx : Option Rec) (step : JobLineStep) : Option Rec :=
  if step.inheritable ≠ some false then prevCtx else none

/-- One step's job run inside the loop of `executeJobLine`: build the args
via `buildJobArgs` (external args; previous = output of the last journal
accumulated so far; the accumulated steps; the current index) and run the job
with the resumption entry at this index as prior journal. -/
def runStepOnce (job : Job) (step : JobLineStep) (prevCtx : Option Rec)
    (external : Rec) (resume : List JobJournal) (idx : Nat)
    (acc : JobLineJournal) : JobExecuteResult :=
  executeOneJob job (stepCtx prevCtx step)
    (buildJobArgs step.args job.args
      { external := some external
        previous := lastOutput acc.steps
        steps := acc.steps
        index := idx })
    (listGet resume idx)

/-- The step loop of `executeJobLine` (`for (let index = 0; ...)`), carrying
the accumulated line journal.  `prevCtx` models the `previousContext` variable:
the source initialises it to `null` and — notably — never reassigns it, so the
recursion passes it through unchanged.  Returns the loop's outcome together
with the trace of executor invocations. -/
def runSteps (jobs : JobRegistry) (resume : List JobJournal) (external : Rec)
    (prevCtx : Option Rec) :
    List JobLineStep → Nat → JobLineJournal → LineOutcome × List String
  | [], _, acc => (.ok acc, [])
  | step :: rest, idx, acc =>
    if prevJournalDone (listGet resume idx) then (.ok acc, [])
    else
      match mapGet jobs step.name with
      | none => (.err ("任务 " ++ step.name ++ " 不存在"), [])
      | some job =>
        let res := runStepOnce job step prevCtx external resume idx acc
        let acc' := { acc with steps := acc.steps ++ [res.journal] }
        if res.journal.status ≠ some JStatus.done then
          (.ok { acc' with status := res.journal.status }, [job.name])
        else if res.done then (.ok acc', [job.name])
        else
          let r := runSteps jobs resume external prevCtx rest (idx + 1) acc'
          (r.1, job.name :: r.2)

/-- The post-loop fixup `if (status === 'pending') status = 'done'`. -/
def finalizeStatus (j : JobLineJournal) : JobLineJournal :=
  if j.status = some JStatus.pending then { j with status := some JStatus.done } else j

/-- The `previousJobLineJournal` resumption reference: the caller-supplied
journal's steps, or the synthesised empty journal's (empty) steps. -/
def resumeSteps (options : Option ExecOptions) : List JobJournal :=
  match options with
  | some o =>
    match o.previousJobLineJournal with
    | some p => p.steps
    | none => []
  | none => []

/-- The body of `executeJobLine` after validation: initialise the line
journal, run the step loop, apply the pending→done fixup on normal loop
completion (an uncaught throw skips the fixup, as in the source). -/
def runLine (jobs : JobRegistry) (jobLine : JobLine) (external : Rec)
    (resume : List JobJournal) : LineOutcome × List String :=
  let init : JobLineJournal :=
    { name := jobLine.name, input := external, status := some .pending, steps := [] }
  match runSteps jobs resume external none jobLine.steps 0 init with
  | (.ok j, tr) => (.ok (finalizeStatus j), tr)
  | (.err m, tr) => (.err m, tr)
  | (.exit, tr) => (.exit, tr)

/-- `executeJobLine`: resolve the line (unknown name exits the process),
validate required external args (missing ones exit the process), then run the
step loop. -/
def executeJobLine (jobs : JobRegistry) (lines : LineRegistry)
    (ref : Sum String JobLine) (options : Option ExecOptions) :
    LineOutcome × List String :=
  match resolveJobLine lines ref with
  | none => (.exit, [])
  | some jobLine =>
    match jobLine.args with
    | none => runLine jobs jobLine [] (resumeSteps options)
    | some reqs =>
      match collectArgs options reqs with
      | .error _ => (.err "TypeError", [])
      | .ok (lacked, ext) =>
        if lacked = [] then runLine jobs jobLine ext (resumeSteps options)
        else (.exit, [])

end Jobline

namespace Jobline

theorem mapGet_recSet_self {α : Type} (r : List (String × α)) (k : String) (v : α) :
    mapGet (recSet r k v) k = some v := by
  induction r with
  | nil => simp [recSet, mapGet]
  | cons hd tl ih =>
    obtain ⟨k0, v0⟩ := hd
    by_cases hk : k0 = k
    · subst hk
      simp [recSet, mapGet]
    · simp [recSet, hk, mapGet, ih]

theorem mapGet_recSet_ne {α : Type} (r : List (String × α)) (k k' : String) (v : α)
    (h : k' ≠ k) : mapGet (recSet r k v) k' = mapGet r k' := by
  have h' : ¬ k = k' := fun hh => h hh.symm
  induction r with
  | nil => simp [recSet, mapGet, h']
  | cons hd tl ih =>
    obtain ⟨k0, v0⟩ := hd
    by_cases hk : k0 = k
    · subst hk
      simp [recSet, mapGet, h']
    · simp [recSet, hk, mapGet, ih]

end Jobline

namespace Jobline

/-- C8: a second registration under an already-used name (for jobs as well as
for job lines) throws and leaves the registry mapping the name to the first
registered item; registering a nullish item returns without error and without
modifying the registry. -/
theorem c8_duplicate_registration_rejected :
    (∀ reg : JobRegistry, registerJob reg none = .ok reg) ∧
    (∀ lreg : LineRegistry, registerJobLine lreg none = .ok lreg) ∧
    (∀ (reg reg1 : JobRegistry) (j1 j2 : Job), j2.name = j1.name →
      registerJob reg (some j1) = .ok reg1 →
      registerJob reg1 (some j2) = .error ("job " ++ j1.name ++ " 已存在") ∧
        mapGet reg1 j1.name = some j1) ∧
    (∀ (lreg lreg1 : LineRegistry) (l1 l2 : JobLine), l2.name = l1.name →
      registerJobLine lreg (some l1) = .ok lreg1 →
      registerJobLine lreg1 (some l2) = .error ("jobLine " ++ l1.name ++ " 已存在") ∧
        mapGet lreg1 l1.name = some l1) := by
  refine ⟨fun reg => rfl, fun lreg => rfl, ?_, ?_⟩
  · intro reg reg1 j1 j2 hname hok
    have hfound : mapGet reg1 j1.name = some j1 := by
      cases hget : mapGet reg j1.name with
      | some j => simp [registerJob, hget] at hok
      | none =>
        simp [registerJob, hget] at hok
        rw [← hok]
        exact mapGet_recSet_self reg j1.name j1
    refine ⟨?_, hfound⟩
    rw [show (registerJob reg1 (some j2) =
        match mapGet reg1 j2.name with
        | some _ => .error ("job " ++ j2.name ++ " 已存在")
        | none => .ok (recSet reg1 j2.name j2)) from rfl, hname, hfound]
  · intro lreg lreg1 l1 l2 hname hok
    have hfound : mapGet lreg1 l1.name = some l1 := by
      cases hget : mapGet lreg l1.name with
      | some l => simp [registerJobLine, hget] at hok
      | none =>
        simp [registerJobLine, hget] at hok
        rw [← hok]
        exact mapGet_recSet_self lreg l1.name l1
    refine ⟨?_, hfound⟩
    rw [show (registerJobLine lreg1 (some l2) =
        match mapGet lreg1 l2.name with
        | some _ => .error ("jobLine " ++ l2.name ++ " 已存在")
        | none => .ok (recSet lreg1 l2.name l2)) from rfl, hname, hfound]

/-- A trivial executor used by concrete registration scenarios. -/
def noopExecutor : JobExecutor := fun _ _ =>
  { ctx := [], result := .ok .vnull, doneCalled := false }

/-- First job registered under the name "dup". -/
def dupJob1 : Job := { name := "dup", args := none, executor := noopExecutor }

/-- Second job registered under the name "dup". -/
def dupJob2 : Job :=
  { name := "dup", args := none
    executor := fun _ _ => { ctx := [], result := .ok (.vnum 1), doneCalled := false } }

/-- First line registered under the name "dupL". -/
def dupLine1 : JobLine := { name := "dupL", args := none, steps := [] }

/-- Second line registered under the name "dupL". -/
def dupLine2 : JobLine :=
  { name := "dupL", args := none
    steps := [{ name := "x", inheritable := none, args := none }] }

/-- Witness for C8 at a concrete duplicate registration. -/
theorem c8_duplicate_registration_rejected_witness :
    (registerJob [("dup", dupJob1)] (some dupJob2) =
        .error ("job " ++ "dup" ++ " 已存在") ∧
      mapGet [("dup", dupJob1)] "dup" = some dupJob1) ∧
    (registerJobLine [("dupL", dupLine1)] (some dupLine2) =
        .error ("jobLine " ++ "dupL" ++ " 已存在") ∧
      mapGet [("dupL", dupLine1)] "dupL" = some dupLine1) :=
  ⟨c8_duplicate_registration_rejected.2.2.1 [] [("dup", dupJob1)] dupJob1 dupJob2 rfl rfl,
   c8_duplicate_registration_rejected.2.2.2 [] [("dupL", dupLine1)] dupLine1 dupLine2 rfl rfl⟩

/-- C4: when the executor throws (or rejects), `executeOneJob` still returns
normally (it is a total function into `JobExecuteResult`); the returned
journal has status 'exception' and its output is the incoming prior journal's
output (or null for a fresh journal). -/
theorem c4_throw_absorbed (job : Job) (ctx : Option Rec) (args : Rec)
    (journal : Option JobJournal) (e : Val)
    (h : (job.executor (ctxOrEmpty ctx) args).result = .error e) :
    (executeOneJob job ctx args journal).journal.status = some JStatus.exception ∧
    (executeOneJob job ctx args journal).journal.output =
      (match journal with | some j => j.output | none => Val.vnull) := by
  cases journal <;> simp [executeOneJob, h]

/-- A job whose executor always throws. -/
def throwingJob : Job :=
  { name := "boom", args := none
    executor := fun _ _ => { ctx := [], result := .error (.vstr "boom"), doneCalled := false } }

/-- Witness for C4: the always-throwing job, fresh journal. -/
theorem c4_throw_absorbed_witness :
    (executeOneJob throwingJob none [] none).journal.status = some JStatus.exception ∧
    (executeOneJob throwingJob none [] none).journal.output = Val.vnull :=
  c4_throw_absorbed throwingJob none [] none (.vstr "boom") rfl

end Jobline

namespace Jobline

theorem applySpec_shape (jobArgs : List String) (opts : BuildOptions)
    (st : Rec × List String) (spec : ArgSpec) :
    applySpec jobArgs opts st spec = st ∨
    ∃ v, applySpec jobArgs opts st spec = (recSet st.1 spec.key v, st.2 ++ [spec.key]) := by
  cases spec with
  | literal k v =>
    by_cases hmem : k ∈ jobArgs
    · exact .inr ⟨v, by simp [applySpec, ArgSpec.key, hmem]⟩
    · exact .inl (by simp [applySpec, ArgSpec.key, hmem])
  | fromExternal k s =>
    by_cases hmem : k ∈ jobArgs
    · cases hext : opts.external with
      | none => exact .inl (by simp [applySpec, ArgSpec.key, hmem, hext])
      | some ext => exact .inr ⟨recGet ext s, by simp [applySpec, ArgSpec.key, hmem, hext]⟩
    · exact .inl (by simp [applySpec, ArgSpec.key, hmem])
  | fromPrevious k s =>
    by_cases hmem : k ∈ jobArgs
    · by_cases ht : opts.previous.truthy
      · exact .inr ⟨opts.previous.getKey s, by simp [applySpec, ArgSpec.key, hmem, ht]⟩
      · exact .inl (by simp [applySpec, ArgSpec.key, hmem, ht])
    · exact .inl (by simp [applySpec, ArgSpec.key, hmem])
  | fromStepAt k i s =>
    by_cases hmem : k ∈ jobArgs
    · by_cases ht : (match (if i < 0 then stepsAt opts.steps ((opts.index : Int) + i)
          else stepsAt opts.steps i) with
          | some j => j.output | none => Val.vundefined).truthy
      · refine .inr ⟨(match (if i < 0 then stepsAt opts.steps ((opts.index : Int) + i)
          else stepsAt opts.steps i) with
          | some j => j.output | none => Val.vundefined).getKey s, ?_⟩
        simp [applySpec, ArgSpec.key, hmem, ht]
      · exact .inl (by simp [applySpec, ArgSpec.key, hmem, ht])
    · exact .inl (by simp [applySpec, ArgSpec.key, hmem])

theorem mem_assigned_foldl (jobArgs : List String) (opts : BuildOptions)
    (specs : List ArgSpec) (st : Rec × List String) (p : String) (hp : p ∈ st.2) :
    p ∈ (List.foldl (applySpec jobArgs opts) st specs).2 := by
  induction specs generalizing st with
  | nil => simpa using hp
  | cons s rest ih =>
    rw [List.foldl_cons]
    apply ih
    rcases applySpec_shape jobArgs opts st s with h | ⟨v, h⟩
    · rw [h]; exact hp
    · rw [h]; exact List.mem_append_left _ hp

theorem mapGet_foldl_applySpec_none (jobArgs : List String) (opts : BuildOptions)
    (specs : List ArgSpec) (st : Rec × List String) (p : String)
    (h1 : mapGet st.1 p = none)
    (h2 : p ∉ (List.foldl (applySpec jobArgs opts) st specs).2) :
    mapGet (List.foldl (applySpec jobArgs opts) st specs).1 p = none := by
  induction specs generalizing st with
  | nil => simpa using h1
  | cons s rest ih =>
    rw [List.foldl_cons] at h2 ⊢
    have hmid : p ∉ (applySpec jobArgs opts st s).2 := by
      intro hm
      exact h2 (mem_assigned_foldl jobArgs opts rest _ p hm)
    apply ih _ _ h2
    rcases applySpec_shape jobArgs opts st s with h | ⟨v, h⟩
    · rw [h]; exact h1
    · rw [h] at hmid ⊢
      have hne : p ≠ s.key := by
        intro he
        exact hmid (List.mem_append_right _ (he ▸ List.mem_singleton.mpr rfl))
      rw [mapGet_recSet_ne _ _ _ _ hne]
      exact h1

end Jobline

namespace Jobline

theorem mapGet_fallback_notmem (ext : Rec) (assigned : List String) (l : List String)
    (r : Rec) (p : String) (hp : p ∉ l) :
    mapGet (l.foldl (fun r a => if a ∈ assigned then r else recSet r a (recGet ext a)) r) p
      = mapGet r p := by
  induction l generalizing r with
  | nil => rfl
  | cons a rest ih =>
    have hpa : p ≠ a := by
      intro he
      exact hp (he ▸ List.mem_cons_self a rest)
    have hprest : p ∉ rest := fun hm => hp (List.mem_cons_of_mem a hm)
    rw [List.foldl_cons]
    by_cases ha : a ∈ assigned
    · rw [if_pos ha]
      exact ih _ hprest
    · rw [if_neg ha, ih _ hprest, mapGet_recSet_ne _ _ _ _ hpa]

theorem mapGet_fallback_mem (ext : Rec) (assigned : List String) (l : List String)
    (r : Rec) (p : String) (hp : p ∈ l) (hpa : p ∉ assigned) :
    mapGet (l.foldl (fun r a => if a ∈ assigned then r else recSet r a (recGet ext a)) r) p
      = some (recGet ext p) := by
  induction l generalizing r with
  | nil => cases hp
  | cons a rest ih =>
    rw [List.foldl_cons]
    by_cases hrest : p ∈ rest
    · exact ih _ hrest
    · have hpa' : p = a := by
        rcases List.mem_cons.mp hp with h | h
        · exact h
        · exact absurd h hrest
      subst hpa'
      rw [if_neg hpa, mapGet_fallback_notmem ext assigned rest _ p hrest, mapGet_recSet_self]

/-- C3 as stated fails: with formal parameters `['a','b']`, two explicit specs
both assigning `a`, and `externalArgs.b == 7`, `assignedArgs.length` (counted
with multiplicity) already reaches the number of formals, so the same-name
fallback is skipped and `b` — contrary to the claim, which requires it to
default to `externalArgs.b == 7` — is absent from the result map. -/
theorem c3_fallback_counterexample :
    mapGet (buildJobArgs
        (some [ArgSpec.literal "a" (.vnum 1), ArgSpec.literal "a" (.vnum 2)])
        (some ["a", "b"])
        { external := some [("b", .vnum 7)], previous := .vundefined, steps := [], index := 0 }) "b"
      = none := rfl

/-- C3, amended: the same-name fallback from `externalArgs` applies to a
formal parameter not explicitly assigned only when the step's spec list and
the job's formal list are both present and the number of explicit assignment
events (counted with multiplicity) is smaller than the number of formal
parameters; when `externalArgs` is absent, or the fallback guard fails, an
unassigned formal parameter is absent as a key from the result map. -/
theorem c3_fallback_amended (specs : List ArgSpec) (jobArgs : List String)
    (opts : BuildOptions) (p : String)
    (hmem : p ∈ jobArgs) (hna : p ∉ (explicitPhase specs jobArgs opts).2) :
    (∀ ext, opts.external = some ext →
      (explicitPhase specs jobArgs opts).2.length < jobArgs.length →
      mapGet (buildJobArgs (some specs) (some jobArgs) opts) p = some (recGet ext p)) ∧
    (opts.external = none →
      mapGet (buildJobArgs (some specs) (some jobArgs) opts) p = none) ∧
    (¬ (explicitPhase specs jobArgs opts).2.length < jobArgs.length →
      mapGet (buildJobArgs (some specs) (some jobArgs) opts) p = none) := by
  have hnone : mapGet (explicitPhase specs jobArgs opts).1 p = none :=
    mapGet_foldl_applySpec_none jobArgs opts specs ([], []) p rfl hna
  refine ⟨?_, ?_, ?_⟩
  · intro ext hext hlen
    simp only [buildJobArgs, hext, if_pos hlen]
    exact mapGet_fallback_mem ext _ jobArgs _ p hmem hna
  · intro hext
    simp only [buildJobArgs, hext]
    exact hnone
  · intro hlen
    cases hext : opts.external with
    | none =>
      simp only [buildJobArgs, hext]
      exact hnone
    | some ext =>
      simp only [buildJobArgs, hext, if_neg hlen]
      exact hnone

/-- Witness for the amended C3: formals `['a','b']`, one explicit spec for
`a`, `externalArgs.b == 7`; the fallback resolves `b` to `7`. -/
theorem c3_fallback_amended_witness :
    mapGet (buildJobArgs (some [ArgSpec.literal "a" (.vnum 1)]) (some ["a", "b"])
      { external := some [("b", .vnum 7)], previous := .vundefined, steps := [], index := 0 }) "b"
      = some (Val.vnum 7) :=
  (c3_fallback_amended [ArgSpec.literal "a" (.vnum 1)] ["a", "b"]
    { external := some [("b", .vnum 7)], previous := .vundefined, steps := [], index := 0 } "b"
    (by decide) (by decide)).1 [("b", .vnum 7)] rfl (by decide)

end Jobline

namespace Jobline

/-- C6: a `FromStepAt(i, s)` spec for a formal parameter, at current index
`n`, resolves the parameter from `steps[n + i].output[s]` when `i` is
negative and from `steps[i].output[s]` when `i` is non-negative, provided the
referenced journal entry exists and its output is truthy; when the entry is
missing or its output is falsy the parameter is silently skipped (no error,
and — with no external args to fall back on — the key is absent from the
result). -/
theorem c6_fromStepAt_resolution (jobArgs : List String) (k : String) (i : Int)
    (s : String) (opts : BuildOptions) (j : JobJournal)
    (hmem : k ∈ jobArgs) (hext : opts.external = none) :
    (i < 0 → stepsAt opts.steps ((opts.index : Int) + i) = some j →
      j.output.truthy = true →
      mapGet (buildJobArgs (some [ArgSpec.fromStepAt k i s]) (some jobArgs) opts) k
        = some (j.output.getKey s)) ∧
    (0 ≤ i → stepsAt opts.steps i = some j →
      j.output.truthy = true →
      mapGet (buildJobArgs (some [ArgSpec.fromStepAt k i s]) (some jobArgs) opts) k
        = some (j.output.getKey s)) ∧
    ((∀ j2, (if i < 0 then stepsAt opts.steps ((opts.index : Int) + i)
        else stepsAt opts.steps i) = some j2 → j2.output.truthy = false) →
      mapGet (buildJobArgs (some [ArgSpec.fromStepAt k i s]) (some jobArgs) opts) k
        = none) := by
  refine ⟨?_, ?_, ?_⟩
  · intro hi hentry htruthy
    simp [buildJobArgs, hext, explicitPhase, applySpec, ArgSpec.key, hmem, hi,
      hentry, htruthy, mapGet]
  · intro hi hentry htruthy
    have hi' : ¬ i < 0 := not_lt.mpr hi
    simp [buildJobArgs, hext, explicitPhase, applySpec, ArgSpec.key, hmem, hi',
      hentry, htruthy, mapGet]
  · intro hall
    by_cases hi : i < 0
    · cases hentry : stepsAt opts.steps ((opts.index : Int) + i) with
      | none =>
        simp [buildJobArgs, hext, explicitPhase, applySpec, ArgSpec.key, hmem, hi,
          hentry, Val.truthy, mapGet]
      | some j2 =>
        have htruthy : j2.output.truthy = false := hall j2 (by rw [if_pos hi]; exact hentry)
        simp [buildJobArgs, hext, explicitPhase, applySpec, ArgSpec.key, hmem, hi,
          hentry, htruthy, mapGet]
    · cases hentry : stepsAt opts.steps i with
      | none =>
        simp [buildJobArgs, hext, explicitPhase, applySpec, ArgSpec.key, hmem, hi,
          hentry, Val.truthy, mapGet]
      | some j2 =>
        have htruthy : j2.output.truthy = false := hall j2 (by rw [if_neg hi]; exact hentry)
        simp [buildJobArgs, hext, explicitPhase, applySpec, ArgSpec.key, hmem, hi,
          hentry, htruthy, mapGet]

/-- Journal entries for the concrete C6 scenario. -/
def c6Step0 : JobJournal :=
  { name := "s0", input := [], output := .vnum 10, status := some .done }

/-- The step whose output the relative reference reads. -/
def c6Step1 : JobJournal :=
  { name := "s1", input := [], output := .vobj [("out", .vnum 5)], status := some .done }

/-- The step at the current index in the concrete C6 scenario. -/
def c6Step2 : JobJournal :=
  { name := "s2", input := [], output := .vnull, status := some .done }

/-- Witness for C6: `FromStepAt(-1, 'out')` at current index 2 resolves from
`steps[1].output.out`. -/
theorem c6_fromStepAt_resolution_witness :
    mapGet (buildJobArgs (some [ArgSpec.fromStepAt "p" (-1) "out"]) (some ["p"])
      { external := none, previous := .vundefined
        steps := [c6Step0, c6Step1, c6Step2], index := 2 }) "p"
      = some (Val.vnum 5) :=
  (c6_fromStepAt_resolution ["p"] "p" (-1) "out"
    { external := none, previous := .vundefined
      steps := [c6Step0, c6Step1, c6Step2], index := 2 } c6Step1
    (by decide) rfl).1 (by decide) rfl rfl

end Jobline

namespace Jobline

theorem executeOneJob_status_cases (job : Job) (ctx : Option Rec) (args : Rec)
    (journal : Option JobJournal) :
    (executeOneJob job ctx args journal).journal.status = some JStatus.done ∨
    (executeOneJob job ctx args journal).journal.status = some JStatus.exception := by
  cases hres : (job.executor (ctxOrEmpty ctx) args).result with
  | ok out => exact .inl (by simp [executeOneJob, hres])
  | error e => exact .inr (by simp [executeOneJob, hres])

theorem runSteps_ok_length (jobs : JobRegistry) (resume : List JobJournal)
    (external : Rec) (prevCtx : Option Rec) (stepsLeft : List JobLineStep) :
    ∀ (idx : Nat) (acc j : JobLineJournal) (tr : List String),
      runSteps jobs resume external prevCtx stepsLeft idx acc = (.ok j, tr) →
      j.steps.length ≤ acc.steps.length + stepsLeft.length := by
  induction stepsLeft with
  | nil =>
    intro idx acc j tr h
    simp only [runSteps, Prod.mk.injEq, LineOutcome.ok.injEq] at h
    rw [← h.1]
    simp
  | cons step rest ih =>
    intro idx acc j tr h
    simp only [runSteps] at h
    split at h
    · simp only [Prod.mk.injEq, LineOutcome.ok.injEq] at h
      rw [← h.1]
      simp only [List.length_cons]
      omega
    · split at h
      · simp at h
      · split at h
        · simp only [Prod.mk.injEq, LineOutcome.ok.injEq] at h
          rw [← h.1]
          simp only [List.length_cons, List.length_append, List.length_nil]
          omega
        · split at h
          · simp only [Prod.mk.injEq, LineOutcome.ok.injEq] at h
            rw [← h.1]
            simp only [List.length_cons, List.length_append, List.length_nil]
            omega
          · rename_i job hjob hst hdn
            simp only [Prod.mk.injEq] at h
            have hlen := ih (idx + 1)
              { acc with steps := acc.steps ++
                  [(runStepOnce job step prevCtx external resume idx acc).journal] } j
              (runSteps jobs resume external prevCtx rest (idx + 1)
                { acc with steps := acc.steps ++
                    [(runStepOnce job step prevCtx external resume idx acc).journal] }).2
              (by rw [← h.1])
            simp only [List.length_append, List.length_cons, List.length_nil] at hlen
            simp only [List.length_cons]
            omega

end Jobline

namespace Jobline

theorem runStepOnce_status_cases (job : Job) (step : JobLineStep)
    (prevCtx : Option Rec) (external : Rec) (resume : List JobJournal)
    (idx : Nat) (acc : JobLineJournal) :
    (runStepOnce job step prevCtx external resume idx acc).journal.status
        = some JStatus.done ∨
    (runStepOnce job step prevCtx external resume idx acc).journal.status
        = some JStatus.exception :=
  executeOneJob_status_cases _ _ _ _

theorem runSteps_status_inv (jobs : JobRegistry) (resume : List JobJournal)
    (external : Rec) (prevCtx : Option Rec) (stepsLeft : List JobLineStep) :
    ∀ (idx : Nat) (acc j : JobLineJournal) (tr : List String),
      acc.status = some JStatus.pending →
      (∀ s ∈ acc.steps, s.status = some JStatus.done) →
      runSteps jobs resume external prevCtx stepsLeft idx acc = (.ok j, tr) →
      (j.status = some JStatus.pending ∧ ∀ s ∈ j.steps, s.status = some JStatus.done) ∨
      (j.status = some JStatus.exception ∧ ∃ s ∈ j.steps, s.status ≠ some JStatus.done) := by
  induction stepsLeft with
  | nil =>
    intro idx acc j tr hp hs h
    simp only [runSteps, Prod.mk.injEq, LineOutcome.ok.injEq] at h
    rw [← h.1]
    exact .inl ⟨hp, hs⟩
  | cons step rest ih =>
    intro idx acc j tr hp hs h
    simp only [runSteps] at h
    split at h
    · simp only [Prod.mk.injEq, LineOutcome.ok.injEq] at h
      rw [← h.1]
      exact .inl ⟨hp, hs⟩
    · split at h
      · simp at h
      · split at h
        · rename_i job hjob hne
          simp only [Prod.mk.injEq, LineOutcome.ok.injEq] at h
          rw [← h.1]
          right
          constructor
          · rcases runStepOnce_status_cases job step prevCtx external resume idx acc with
              hd | he
            · exact absurd hd hne
            · exact he
          · exact ⟨(runStepOnce job step prevCtx external resume idx acc).journal,
              List.mem_append_right _ (List.mem_singleton.mpr rfl), hne⟩
        · split at h
          · rename_i job hjob hne hdone
            simp only [Prod.mk.injEq, LineOutcome.ok.injEq] at h
            rw [← h.1]
            left
            refine ⟨hp, ?_⟩
            intro s hsmem
            rcases List.mem_append.mp hsmem with hin | hin
            · exact hs s hin
            · rw [List.mem_singleton.mp hin]
              exact not_not.mp hne
          · rename_i job hjob hne hdone
            simp only [Prod.mk.injEq] at h
            refine ih (idx + 1)
              { acc with steps := acc.steps ++
                  [(runStepOnce job step prevCtx external resume idx acc).journal] } j
              (runSteps jobs resume external prevCtx rest (idx + 1)
                { acc with steps := acc.steps ++
                    [(runStepOnce job step prevCtx external resume idx acc).journal] }).2
              hp ?_ (by rw [← h.1])
            intro s hsmem
            rcases List.mem_append.mp hsmem with hin | hin
            · exact hs s hin
            · rw [List.mem_singleton.mp hin]
              exact not_not.mp hne

end Jobline

namespace Jobline

theorem finalizeStatus_steps (j : JobLineJournal) :
    (finalizeStatus j).steps = j.steps := by
  unfold finalizeStatus
  split <;> rfl

theorem runLine_ok_inv (jobs : JobRegistry) (jobLine : JobLine) (external : Rec)
    (resume : List JobJournal) (j : JobLineJournal) (tr : List String)
    (h : runLine jobs jobLine external resume = (.ok j, tr)) :
    j.steps.length ≤ jobLine.steps.length ∧
    j.status ≠ some JStatus.pending ∧
    (j.status = some JStatus.exception ↔ ∃ s ∈ j.steps, s.status ≠ some JStatus.done) ∧
    (j.status = some JStatus.exception ∨ j.status = some JStatus.done) := by
  simp only [runLine] at h
  split at h
  · rename_i j0 t0 heq
    simp only [Prod.mk.injEq, LineOutcome.ok.injEq] at h
    obtain ⟨hj, htr⟩ := h
    have hlen := runSteps_ok_length jobs resume external none jobLine.steps 0
      { name := jobLine.name, input := external, status := some .pending, steps := [] }
      j0 t0 heq
    have hinv := runSteps_status_inv jobs resume external none jobLine.steps 0
      { name := jobLine.name, input := external, status := some .pending, steps := [] }
      j0 t0 rfl (by intro s hs; cases hs) heq
    rw [← hj]
    rcases hinv with ⟨hp0, hall⟩ | ⟨he0, hex⟩
    · have hfin : finalizeStatus j0 = { j0 with status := some JStatus.done } := by
        unfold finalizeStatus
        rw [if_pos hp0]
      rw [hfin]
      refine ⟨by simpa using hlen, by simp, ?_, .inr rfl⟩
      constructor
      · intro habs
        simp at habs
      · intro ⟨s, hsmem, hsne⟩
        exact absurd (hall s hsmem) hsne
    · have hfin : finalizeStatus j0 = j0 := by
        unfold finalizeStatus
        rw [if_neg (by rw [he0]; simp)]
      rw [hfin]
      refine ⟨by simpa using hlen, by rw [he0]; simp, ?_, .inl he0⟩
      constructor
      · intro _
        exact hex
      · intro _
        exact he0
  · simp at h
  · simp at h

/-- C9: whenever `executeJobLine` returns a journal, the journal's `steps`
list is no longer than the resolved line's `steps` list (it may be shorter
when execution stopped early). -/
theorem c9_journal_steps_bounded (jobs : JobRegistry) (lines : LineRegistry)
    (ref : Sum String JobLine) (options : Option ExecOptions)
    (jobLine : JobLine) (j : JobLineJournal) (tr : List String)
    (hline : resolveJobLine lines ref = some jobLine)
    (h : executeJobLine jobs lines ref options = (.ok j, tr)) :
    j.steps.length ≤ jobLine.steps.length := by
  simp only [executeJobLine, hline] at h
  split at h
  · exact (runLine_ok_inv _ _ _ _ _ _ h).1
  · split at h
    · simp at h
    · split at h
      · exact (runLine_ok_inv _ _ _ _ _ _ h).1
      · simp at h

/-- Witness for C9 at a zero-step line given by direct reference. -/
theorem c9_journal_steps_bounded_witness :
    (⟨"E", [], some JStatus.done, []⟩ : JobLineJournal).steps.length ≤
      ({ name := "E", args := none, steps := [] } : JobLine).steps.length :=
  c9_journal_steps_bounded [] [] (.inr { name := "E", args := none, steps := [] })
    none { name := "E", args := none, steps := [] }
    ⟨"E", [], some JStatus.done, []⟩ [] rfl rfl

/-- C10: whenever `executeJobLine` returns a journal, the journal's status is
never 'pending' (and never left unset): it is 'exception' exactly when some
recorded step has a non-'done' status, and 'done' in every other case
(zero-step lines, a stop via the `done()` signal, and the resumption
short-circuit included) — the status is always exactly one of 'exception' and
'done'. -/
theorem c10_line_status_resolved (jobs : JobRegistry) (lines : LineRegistry)
    (ref : Sum String JobLine) (options : Option ExecOptions)
    (j : JobLineJournal) (tr : List String)
    (h : executeJobLine jobs lines ref options = (.ok j, tr)) :
    j.status ≠ some JStatus.pending ∧
    (j.status = some JStatus.exception ↔ ∃ s ∈ j.steps, s.status ≠ some JStatus.done) ∧
    ((¬ ∃ s ∈ j.steps, s.status ≠ some JStatus.done) → j.status = some JStatus.done) := by
  rcases hline : resolveJobLine lines ref with _ | jobLine
  · simp only [executeJobLine, hline] at h
    simp at h
  · simp only [executeJobLine, hline] at h
    have fin : runLine jobs jobLine [] (resumeSteps options) = (.ok j, tr) →
        j.status ≠ some JStatus.pending ∧
        (j.status = some JStatus.exception ↔ ∃ s ∈ j.steps, s.status ≠ some JStatus.done) ∧
        ((¬ ∃ s ∈ j.steps, s.status ≠ some JStatus.done) → j.status = some JStatus.done) := by
      intro hr
      obtain ⟨_, hnp, hiff, hcases⟩ := runLine_ok_inv _ _ _ _ _ _ hr
      refine ⟨hnp, hiff, fun hne => ?_⟩
      rcases hcases with he | hd
      · exact absurd (hiff.mp he) hne
      · exact hd
    split at h
    · exact fin h
    · split at h
      · simp at h
      · split at h
        · obtain ⟨_, hnp, hiff, hcases⟩ := runLine_ok_inv _ _ _ _ _ _ h
          refine ⟨hnp, hiff, fun hne => ?_⟩
          rcases hcases with he | hd
          · exact absurd (hiff.mp he) hne
          · exact hd
        · simp at h

/-- Witness for C10 at a zero-step line: the returned status is 'done'. -/
theorem c10_line_status_resolved_witness :
    (some JStatus.done : Option JStatus) ≠ some JStatus.pending ∧
    ((some JStatus.done : Option JStatus) = some JStatus.exception ↔
      ∃ s ∈ ([] : List JobJournal), s.status ≠ some JStatus.done) ∧
    ((¬ ∃ s ∈ ([] : List JobJournal), s.status ≠ some JStatus.done) →
      (some JStatus.done : Option JStatus) = some JStatus.done) :=
  c10_line_status_resolved [] [] (.inr { name := "E", args := none, steps := [] })
    none ⟨"E", [], some JStatus.done, []⟩ [] rfl

end Jobline

namespace Jobline

/-- C2: when the resumption reference holds an entry with status 'done' at the
current index, the whole line stops there: the loop returns the accumulated
journal unchanged and invokes no further executor; lifted to `executeJobLine`,
resuming a no-required-args line whose prior journal has `steps[0]` done
returns an empty-steps journal with status 'done' and an empty invocation
trace. -/
theorem c2_resume_done_short_circuit :
    (∀ (jobs : JobRegistry) (resume : List JobJournal) (external : Rec)
        (prevCtx : Option Rec) (step : JobLineStep) (rest : List JobLineStep)
        (idx : Nat) (acc : JobLineJournal) (pj : JobJournal),
      listGet resume idx = some pj → pj.status = some JStatus.done →
      runSteps jobs resume external prevCtx (step :: rest) idx acc = (.ok acc, [])) ∧
    (∀ (jobs : JobRegistry) (lines : LineRegistry) (line : JobLine)
        (step : JobLineStep) (rest : List JobLineStep) (opts : ExecOptions)
        (prev : JobLineJournal) (pj : JobJournal),
      line.args = none → line.steps = step :: rest →
      opts.previousJobLineJournal = some prev →
      listGet prev.steps 0 = some pj → pj.status = some JStatus.done →
      executeJobLine jobs lines (.inr line) (some opts) =
        (.ok { name := line.name, input := [], status := some JStatus.done, steps := [] },
         [])) := by
  constructor
  · intro jobs resume external prevCtx step rest idx acc pj hget hstat
    have hpd : prevJournalDone (listGet resume idx) = true := by
      rw [hget]
      simp [prevJournalDone, hstat]
    simp [runSteps, hpd]
  · intro jobs lines line step rest opts prev pj hargs hsteps hprev hget hstat
    have hpd : prevJournalDone (listGet prev.steps 0) = true := by
      rw [hget]
      simp [prevJournalDone, hstat]
    simp only [executeJobLine, resolveJobLine, hargs, runLine, resumeSteps, hprev,
      hsteps, runSteps, hpd, if_true, finalizeStatus]

/-- C7: a step naming an unregistered job makes the loop return the thrown
job-not-found error with no executor invoked from that index on; lifted to
`executeJobLine` (first step unknown, no options), the error propagates out
of the call with an empty invocation trace. -/
theorem c7_job_not_found_propagates :
    (∀ (jobs : JobRegistry) (resume : List JobJournal) (external : Rec)
        (prevCtx : Option Rec) (step : JobLineStep) (rest : List JobLineStep)
        (idx : Nat) (acc : JobLineJournal),
      (∀ pj, listGet resume idx = some pj → pj.status ≠ some JStatus.done) →
      mapGet jobs step.name = none →
      runSteps jobs resume external prevCtx (step :: rest) idx acc =
        (.err ("任务 " ++ step.name ++ " 不存在"), [])) ∧
    (∀ (jobs : JobRegistry) (lines : LineRegistry) (line : JobLine)
        (step : JobLineStep) (rest : List JobLineStep),
      line.args = none → line.steps = step :: rest →
      mapGet jobs step.name = none →
      executeJobLine jobs lines (.inr line) none =
        (.err ("任务 " ++ step.name ++ " 不存在"), [])) := by
  constructor
  · intro jobs resume external prevCtx step rest idx acc hnd hjob
    have hpd : prevJournalDone (listGet resume idx) = false := by
      cases hg : listGet resume idx with
      | none => simp [prevJournalDone]
      | some pj => simp [prevJournalDone, hnd pj hg]
    simp [runSteps, hpd, hjob]
  · intro jobs lines line step rest hargs hsteps hjob
    simp only [executeJobLine, resolveJobLine, hargs, runLine, resumeSteps, hsteps,
      runSteps, listGet, prevJournalDone, hjob]
    simp

end Jobline

namespace Jobline

/-- A journal entry with status 'done', used as resumption state. -/
def doneEntry : JobJournal := { name := "d", input := [], output := .vnull, status := some .done }

/-- An accumulated line journal used by concrete loop scenarios. -/
def accJournal : JobLineJournal := { name := "A", input := [], status := some .pending, steps := [] }

/-- A step referencing the job "x". -/
def stepX : JobLineStep := { name := "x", inheritable := none, args := none }

/-- A one-step line used to exercise the resumption short-circuit. -/
def resumeLine : JobLine := { name := "RL", args := none, steps := [stepX] }

/-- A prior line journal whose first entry is 'done'. -/
def priorLineJournal : JobLineJournal :=
  { name := "RL", input := [], status := some .done, steps := [doneEntry] }

/-- Witness for C2: resuming the one-step line with `steps[0]` done stops at
index 0, with no executor invocation and no appended entries. -/
theorem c2_resume_done_short_circuit_witness :
    runSteps [] [doneEntry] [] none [stepX] 0 accJournal = (.ok accJournal, []) ∧
    executeJobLine [] [] (.inr resumeLine)
        (some { args := none, previousJobLineJournal := some priorLineJournal }) =
      (.ok { name := resumeLine.name, input := [], status := some JStatus.done, steps := [] },
       []) :=
  ⟨c2_resume_done_short_circuit.1 [] [doneEntry] [] none stepX [] 0 accJournal doneEntry
      rfl rfl,
   c2_resume_done_short_circuit.2 [] [] resumeLine stepX []
      { args := none, previousJobLineJournal := some priorLineJournal }
      priorLineJournal doneEntry rfl rfl rfl rfl rfl⟩

/-- A step referencing a job name absent from the registry. -/
def ghostStep : JobLineStep := { name := "ghost", inheritable := none, args := none }

/-- A one-step line whose single step references an unregistered job. -/
def ghostLine : JobLine := { name := "L7", args := none, steps := [ghostStep] }

/-- Witness for C7: an unknown job name yields the propagating error and an
empty invocation trace, at loop level and through `executeJobLine`. -/
theorem c7_job_not_found_propagates_witness :
    runSteps [] [] [] none [ghostStep] 0 accJournal =
      (.err ("任务 " ++ ghostStep.name ++ " 不存在"), []) ∧
    executeJobLine [] [] (.inr ghostLine) none =
      (.err ("任务 " ++ ghostStep.name ++ " 不存在"), []) :=
  ⟨c7_job_not_found_propagates.1 [] [] [] none ghostStep [] 0 accJournal
      (fun _ h => Option.noConfusion h) rfl,
   c7_job_not_found_propagates.2 [] [] ghostLine ghostStep [] rfl rfl rfl⟩

/-- A job whose executor mutates its context (sets `ctx.x = 1`). -/
def mutJob : Job :=
  { name := "mut", args := none
    executor := fun ctx _ =>
      { ctx := recSet ctx "x" (.vnum 1), result := .ok (.vnum 0), doneCalled := false } }

/-- A job whose executor reports the context object it received as its
output. -/
def probeJob : Job :=
  { name := "probe", args := none
    executor := fun ctx _ => { ctx := ctx, result := .ok (.vobj ctx), doneCalled := false } }

/-- Registry holding the mutating job and the probing job. -/
def ctxJobs : JobRegistry := [("mut", mutJob), ("probe", probeJob)]

/-- Two-step line: first the mutating job, then the probing job with the
default `inheritContext` (absent, hence not `false`). -/
def ctxLine : JobLine :=
  { name := "L", args := none
    steps := [ { name := "mut", inheritable := none, args := none }
             , { name := "probe", inheritable := none, args := none } ] }

/-- C1, code behaviour at the failing input: step 1's executor mutates its
context (`ctx.x = 1`) and step 2 has the default `inheritContext`; yet step
2's executor receives a fresh empty context — its recorded output is the
empty object, not `{x: 1}` — because `executeJobLine` never updates its
`previousContext` variable from the returned `res.ctx`, so every step is run
with a `null` context. -/
theorem c1_context_never_inherited :
    executeJobLine ctxJobs [] (.inr ctxLine) none =
      (.ok { name := "L", input := [], status := some JStatus.done
             steps := [ { name := "mut", input := [], output := .vnum 0
                          status := some JStatus.done }
                      , { name := "probe", input := [], output := .vobj []
                          status := some JStatus.done } ] },
       ["mut", "probe"]) := rfl

/-- First job of the three-step scenario: succeeds with output 1. -/
def okJob : Job :=
  { name := "a", args := none
    executor := fun _ _ => { ctx := [], result := .ok (.vnum 1), doneCalled := false } }

/-- Second job of the three-step scenario: always throws. -/
def throwJob : Job :=
  { name := "b", args := none
    executor := fun _ _ => { ctx := [], result := .error (.vstr "boom"), doneCalled := false } }

/-- Third job of the three-step scenario: would succeed with output 3. -/
def thirdJob : Job :=
  { name := "c", args := none
    executor := fun _ _ => { ctx := [], result := .ok (.vnum 3), doneCalled := false } }

/-- Registry for the three-step scenario. -/
def threeJobs : JobRegistry := [("a", okJob), ("b", throwJob), ("c", thirdJob)]

/-- Three-step line over jobs a, b, c. -/
def threeStepLine : JobLine :=
  { name := "L5", args := none
    steps := [ { name := "a", inheritable := none, args := none }
             , { name := "b", inheritable := none, args := none }
             , { name := "c", inheritable := none, args := none } ] }

/-- C5: in the 3-step line with no resumption journal, where step 1 succeeds
and step 2 throws, the returned journal has `steps[0]` done, `steps[1]`
exception, exactly two entries, line status 'exception'; the invocation trace
is exactly ["a", "b"] — job "c" is never invoked. -/
theorem c5_three_step_exception_stop :
    executeJobLine threeJobs [] (.inr threeStepLine) none =
      (.ok { name := "L5", input := [], status := some JStatus.exception
             steps := [ { name := "a", input := [], output := .vnum 1
                          status := some JStatus.done }
                      , { name := "b", input := [], output := .vnull
                          status := some JStatus.exception } ] },
       ["a", "b"]) := rfl

end Jobline
